import Mathlib

/-!
Shallow embedding of the CTIM codec (`src/ctim.cpp`): `encodeCTIM` packs a
(ledger index, transaction index, network id) triple into a tagged 64-bit
value printed as 16 uppercase hex characters, and `decodeCTIM` validates and
unpacks either the string form or the integer form.  Machine integers are
modelled as `Nat` with explicit `% 2 ^ 64` where the C++ computes in
`uint64_t`.
-/

namespace CTIM

/-- Uppercase hex digit character for a nibble value, the digit alphabet of
`std::hex << std::uppercase` (`'0'`–`'9'` then `'A'`–`'F'`). -/
def hexDigitChar (n : Nat) : Char :=
  if n < 10 then Char.ofNat (48 + n) else Char.ofNat (55 + n)

/-- Little-endian hex digit stream of `v` (empty for 0), with structural fuel
so it evaluates in the kernel.  `fuel ≥ v` makes the fuel irrelevant. -/
def hexRevDigitsAux : Nat → Nat → List Char
  | 0, _ => []
  | fuel + 1, v =>
    if v = 0 then [] else hexDigitChar (v % 16) :: hexRevDigitsAux fuel (v / 16)

/-- Little-endian list of the uppercase hex digits of `v`; empty for 0. -/
def hexRevDigits (v : Nat) : List Char :=
  hexRevDigitsAux v v

/-- Minimal (unpadded) uppercase-hex rendering of `v`, most significant digit
first: what `operator<<` with `std::hex` prints before `setw` padding.  Zero
prints as a single `'0'`. -/
def hexMinDigits (v : Nat) : List Char :=
  if v = 0 then ['0'] else (hexRevDigits v).reverse

/-- `std::setfill('0') << std::setw(16)`: left-pad the minimal rendering with
`'0'` to width 16. -/
def hexPad16 (v : Nat) : String :=
  ⟨List.replicate (16 - (hexMinDigits v).length) '0' ++ hexMinDigits v⟩

/-- `encodeCTIM` of `src/ctim.cpp`: reject out-of-range fields, otherwise
pack `((0xC0000000 + lgrIndex) << 32) + (txnIndex << 16) + networkId` in
64-bit unsigned arithmetic and print it as 16 uppercase hex characters. -/
def encodeCTIM (lgrIndex txnIndex networkId : Nat) : Option String :=
  if lgrIndex > 0xFFFFFFF then none
  else if txnIndex > 0xFFFF then none
  else if networkId > 0xFFFF then none
  else
    some (hexPad16
      ((((0xC0000000 + lgrIndex) <<< 32) + (txnIndex <<< 16) + networkId) % 2 ^ 64))

/-- Character class of the regex `^[0-9A-F]+$` used by the text path of
`decodeCTIM`: uppercase hex digits only. -/
def isUpperHexDigit (c : Char) : Bool :=
  (decide ('0' ≤ c) && decide (c ≤ '9')) || (decide ('A' ≤ c) && decide (c ≤ 'F'))

/-- Numeric value of one hex digit character, as `std::stoull` base 16
assigns it (only ever applied to characters in `[0-9A-F]`). -/
def hexCharVal (c : Char) : Nat :=
  if c ≤ '9' then c.toNat - 48 else c.toNat - 55

/-- Base-16 positional parse of a digit list, modelling
`std::stoull(s, nullptr, 16)` on a string of hex digits. -/
def parseHex (cs : List Char) : Nat :=
  cs.foldl (fun acc c => 16 * acc + hexCharVal c) 0

/-- Integer path and common tail of `decodeCTIM`: range check (live only when
the host integer is wider than 64 bits), format-tag check, then unpack the
three fields. -/
def decodeCTIMValue (ctimValue : Nat) : Option (Nat × Nat × Nat) :=
  if ctimValue > 0xFFFFFFFFFFFFFFFF ∨
      (ctimValue &&& 0xF000000000000000) ≠ 0xC000000000000000 then none
  else
    some ((ctimValue >>> 32) &&& 0xFFFFFFF, (ctimValue >>> 16) &&& 0xFFFF,
      ctimValue &&& 0xFFFF)

/-- Text path of `decodeCTIM`: length must be exactly 16, every character in
`[0-9A-F]` (the regex `^[0-9A-F]+$`, whose one-or-more quantifier is already
implied by the length check), then parse base 16 and fall through to the
common validation. -/
def decodeCTIMString (s : String) : Option (Nat × Nat × Nat) :=
  if s.length ≠ 16 then none
  else if ¬ s.data.all isUpperHexDigit then none
  else decodeCTIMValue (parseHex s.data)

/-- The packed 64-bit value produced by a successful encode, written with
multiplications in place of the overflow-free shifts. -/
def packValue (l t n : Nat) : Nat :=
  (0xC0000000 + l) * 2 ^ 32 + t * 2 ^ 16 + n

/-! ### Digit and parsing lemmas -/

lemma char_le_iff {a b : Char} : a ≤ b ↔ a.toNat ≤ b.toNat := Iff.rfl

lemma hexRevDigitsAux_zero (f : Nat) : hexRevDigitsAux f 0 = [] := by
  cases f <;> simp [hexRevDigitsAux]

lemma hexRevDigitsAux_congr :
    ∀ f₁ f₂ v : Nat, v ≤ f₁ → v ≤ f₂ →
      hexRevDigitsAux f₁ v = hexRevDigitsAux f₂ v := by
  intro f₁
  induction f₁ with
  | zero =>
    intro f₂ v h1 _
    have hv : v = 0 := Nat.le_zero.mp h1
    subst hv
    rw [hexRevDigitsAux_zero, hexRevDigitsAux_zero]
  | succ f ih =>
    intro f₂ v h1 h2
    by_cases hv : v = 0
    · subst hv
      rw [hexRevDigitsAux_zero, hexRevDigitsAux_zero]
    · cases f₂ with
      | zero => omega
      | succ f₂ =>
        simp only [hexRevDigitsAux]
        rw [if_neg hv, if_neg hv]
        have hd : v / 16 < v := Nat.div_lt_self (Nat.pos_of_ne_zero hv) (by omega)
        rw [ih f₂ (v / 16) (by omega) (by omega)]

lemma hexRevDigits_eq (v : Nat) :
    hexRevDigits v =
      if v = 0 then [] else hexDigitChar (v % 16) :: hexRevDigits (v / 16) := by
  by_cases hv : v = 0
  · subst hv
    simp [hexRevDigits, hexRevDigitsAux_zero]
  · rw [if_neg hv]
    unfold hexRevDigits
    cases v with
    | zero => exact absurd rfl hv
    | succ w =>
      simp only [hexRevDigitsAux]
      rw [if_neg hv]
      have hle : (w + 1) / 16 ≤ w := by omega
      rw [hexRevDigitsAux_congr w ((w + 1) / 16) ((w + 1) / 16) hle le_rfl]

lemma hexCharVal_hexDigitChar {m : Nat} (h : m < 16) :
    hexCharVal (hexDigitChar m) = m := by
  interval_cases m <;> decide

lemma isUpperHexDigit_hexDigitChar {m : Nat} (h : m < 16) :
    isUpperHexDigit (hexDigitChar m) = true := by
  interval_cases m <;> decide

lemma parseHex_concat (xs : List Char) (c : Char) :
    parseHex (xs ++ [c]) = 16 * parseHex xs + hexCharVal c := by
  unfold parseHex
  rw [List.foldl_append]
  rfl

lemma parseHex_reverse_hexRevDigits (v : Nat) :
    parseHex (hexRevDigits v).reverse = v := by
  induction v using Nat.strong_induction_on with
  | _ v ih =>
    rw [hexRevDigits_eq]
    by_cases hv : v = 0
    · subst hv
      simp [parseHex]
    · rw [if_neg hv, List.reverse_cons, parseHex_concat,
        hexCharVal_hexDigitChar (Nat.mod_lt v (by omega)),
        ih (v / 16) (Nat.div_lt_self (Nat.pos_of_ne_zero hv) (by omega))]
      omega

lemma parseHex_hexMinDigits (v : Nat) : parseHex (hexMinDigits v) = v := by
  unfold hexMinDigits
  by_cases hv : v = 0
  · subst hv
    simp only [if_pos rfl]
    decide
  · rw [if_neg hv]
    exact parseHex_reverse_hexRevDigits v

lemma parseHex_replicate_zero (k : Nat) (xs : List Char) :
    parseHex (List.replicate k '0' ++ xs) = parseHex xs := by
  induction k with
  | zero => simp
  | succ k ih =>
    rw [List.replicate_succ, List.cons_append]
    have h0 : hexCharVal '0' = 0 := by decide
    unfold parseHex at ih ⊢
    rw [List.foldl_cons]
    simpa [h0] using ih

lemma hexRevDigits_length_le : ∀ k v : Nat, v < 16 ^ k → (hexRevDigits v).length ≤ k := by
  intro k
  induction k with
  | zero =>
    intro v hv
    have hv0 : v = 0 := by simpa using hv
    subst hv0
    rw [hexRevDigits_eq]
    simp
  | succ k ih =>
    intro v hv
    rw [hexRevDigits_eq]
    by_cases hv0 : v = 0
    · simp [hv0]
    · rw [if_neg hv0]
      simp only [List.length_cons]
      have hdiv : v / 16 < 16 ^ k := by
        rw [Nat.div_lt_iff_lt_mul (by omega : 0 < 16)]
        calc v < 16 ^ (k + 1) := hv
          _ = 16 ^ k * 16 := by rw [Nat.pow_succ]
      have := ih _ hdiv
      omega

lemma hexRevDigits_getLast :
    ∀ k v : Nat, 16 ^ k ≤ v → v < 16 ^ (k + 1) →
      (hexRevDigits v).length = k + 1 ∧
      (hexRevDigits v).getLast? = some (hexDigitChar (v / 16 ^ k)) := by
  intro k
  induction k with
  | zero =>
    intro v h1 h2
    simp only [pow_zero, pow_one] at h1 h2
    have hv0 : v ≠ 0 := by omega
    rw [hexRevDigits_eq, if_neg hv0]
    have hdiv : v / 16 = 0 := Nat.div_eq_of_lt h2
    rw [hdiv, hexRevDigits_eq, if_pos rfl]
    have hmod : v % 16 = v := Nat.mod_eq_of_lt h2
    rw [hmod]
    simp
  | succ k ih =>
    intro v h1 h2
    have hpos : 0 < 16 ^ (k + 1) := Nat.pos_pow_of_pos _ (by omega)
    have hv0 : v ≠ 0 := by omega
    rw [hexRevDigits_eq, if_neg hv0]
    have hlo : 16 ^ k ≤ v / 16 := by
      rw [Nat.le_div_iff_mul_le (by omega : 0 < 16)]
      calc 16 ^ k * 16 = 16 ^ (k + 1) := (Nat.pow_succ 16 k).symm
        _ ≤ v := h1
    have hhi : v / 16 < 16 ^ (k + 1) := by
      rw [Nat.div_lt_iff_lt_mul (by omega : 0 < 16)]
      calc v < 16 ^ (k + 2) := h2
        _ = 16 ^ (k + 1) * 16 := by rw [Nat.pow_succ]
    obtain ⟨ihlen, ihlast⟩ := ih (v / 16) hlo hhi
    constructor
    · simp only [List.length_cons, ihlen]
    · cases htail : hexRevDigits (v / 16) with
      | nil => rw [htail] at ihlen; simp at ihlen
      | cons a as =>
        rw [htail] at ihlast
        rw [List.getLast?_cons_cons, ihlast]
        have : v / 16 / 16 ^ k = v / 16 ^ (k + 1) := by
          rw [Nat.div_div_eq_div_mul]
          congr 1
          rw [Nat.pow_succ, Nat.mul_comm]
        rw [this]

/-! ### The padded 16-character rendering -/

lemma string_length_data (s : String) : s.length = s.data.length := rfl

lemma hexPad16_data (v : Nat) :
    (hexPad16 v).data =
      List.replicate (16 - (hexMinDigits v).length) '0' ++ hexMinDigits v := rfl

lemma hexMinDigits_length_le (v : Nat) (hv : v < 2 ^ 64) :
    (hexMinDigits v).length ≤ 16 := by
  unfold hexMinDigits
  by_cases h : v = 0
  · simp [h]
  · rw [if_neg h, List.length_reverse]
    refine hexRevDigits_length_le 16 v ?_
    calc v < 2 ^ 64 := hv
      _ = 16 ^ 16 := by norm_num

lemma hexPad16_length (v : Nat) (hv : v < 2 ^ 64) : (hexPad16 v).length = 16 := by
  have hle := hexMinDigits_length_le v hv
  rw [string_length_data, hexPad16_data, List.length_append, List.length_replicate]
  omega

lemma hexRevDigits_all (v : Nat) : (hexRevDigits v).all isUpperHexDigit = true := by
  induction v using Nat.strong_induction_on with
  | _ v ih =>
    rw [hexRevDigits_eq]
    by_cases hv : v = 0
    · simp [hv]
    · rw [if_neg hv, List.all_cons,
        isUpperHexDigit_hexDigitChar (Nat.mod_lt v (by omega)),
        ih (v / 16) (Nat.div_lt_self (Nat.pos_of_ne_zero hv) (by omega))]
      rfl

lemma hexPad16_all (v : Nat) : (hexPad16 v).data.all isUpperHexDigit = true := by
  rw [hexPad16_data, List.all_append]
  have h1 : (List.replicate (16 - (hexMinDigits v).length) '0').all isUpperHexDigit = true := by
    rw [List.all_eq_true]
    intro c hc
    rw [List.eq_of_mem_replicate hc]
    decide
  have h2 : (hexMinDigits v).all isUpperHexDigit = true := by
    unfold hexMinDigits
    by_cases h : v = 0
    · rw [if_pos h]; decide
    · rw [if_neg h, List.all_reverse]
      exact hexRevDigits_all v
  rw [h1, h2]
  rfl

lemma parseHex_hexPad16 (v : Nat) : parseHex (hexPad16 v).data = v := by
  rw [hexPad16_data, parseHex_replicate_zero, parseHex_hexMinDigits]

lemma hexPad16_head (v : Nat) (h1 : 2 ^ 60 ≤ v) (h2 : v < 2 ^ 64) :
    (hexPad16 v).data.head? = some (hexDigitChar (v / 2 ^ 60)) := by
  have e1 : (16 : Nat) ^ 15 = 2 ^ 60 := by norm_num
  have e2 : (16 : Nat) ^ (15 + 1) = 2 ^ 64 := by norm_num
  obtain ⟨hlen, hlast⟩ :=
    hexRevDigits_getLast 15 v (by rw [e1]; exact h1) (by rw [e2]; exact h2)
  have hv0 : v ≠ 0 := by
    have : (0 : Nat) < 2 ^ 60 := by positivity
    omega
  rw [hexPad16_data]
  unfold hexMinDigits
  rw [if_neg hv0, List.length_reverse, hlen, show 15 + 1 = 16 from rfl, Nat.sub_self]
  simp only [List.replicate_zero, List.nil_append, List.head?_reverse]
  rw [hlast, e1]

/-! ### Bitmask arithmetic -/

lemma and_FFFF (v : Nat) : v &&& 0xFFFF = v % 2 ^ 16 := by
  rw [show (0xFFFF : Nat) = 2 ^ 16 - 1 by norm_num, Nat.and_pow_two_sub_one_eq_mod]

lemma and_FFFFFFF (v : Nat) : v &&& 0xFFFFFFF = v % 2 ^ 28 := by
  rw [show (0xFFFFFFF : Nat) = 2 ^ 28 - 1 by norm_num, Nat.and_pow_two_sub_one_eq_mod]

lemma and_high_mask (v : Nat) :
    v &&& 0xF000000000000000 = v / 2 ^ 60 % 16 * 2 ^ 60 := by
  have hmask : (0xF000000000000000 : Nat) = 15 <<< 60 := by
    rw [Nat.shiftLeft_eq]
  have hrhs : v / 2 ^ 60 % 16 * 2 ^ 60 = (v >>> 60 % 2 ^ 4) <<< 60 := by
    rw [Nat.shiftLeft_eq, Nat.shiftRight_eq_div_pow]
    norm_num
  rw [hmask, hrhs]
  apply Nat.eq_of_testBit_eq
  intro i
  simp only [Nat.testBit_and, Nat.testBit_shiftLeft, Nat.testBit_mod_two_pow,
    Nat.testBit_shiftRight]
  rw [show (15 : Nat) = 2 ^ 4 - 1 by norm_num, Nat.testBit_two_pow_sub_one]
  by_cases h60 : 60 ≤ i
  · rw [show 60 + (i - 60) = i by omega]
    cases Nat.testBit v i <;> simp [h60]
  · simp [h60]

lemma tag_iff (v : Nat) :
    v &&& 0xF000000000000000 = 0xC000000000000000 ↔ v / 2 ^ 60 % 16 = 12 := by
  rw [and_high_mask, show (2 : Nat) ^ 60 = 1152921504606846976 by norm_num]
  omega

/-! ### The packed value -/

lemma packValue_lt (l t n : Nat) (hl : l ≤ 0xFFFFFFF) (ht : t ≤ 0xFFFF)
    (hn : n ≤ 0xFFFF) : packValue l t n < 2 ^ 64 := by
  unfold packValue
  rw [show (2 : Nat) ^ 32 = 4294967296 by norm_num,
    show (2 : Nat) ^ 16 = 65536 by norm_num,
    show (2 : Nat) ^ 64 = 18446744073709551616 by norm_num]
  omega

lemma encodeCTIM_eq (l t n : Nat) (hl : l ≤ 0xFFFFFFF) (ht : t ≤ 0xFFFF)
    (hn : n ≤ 0xFFFF) : encodeCTIM l t n = some (hexPad16 (packValue l t n)) := by
  unfold encodeCTIM
  rw [if_neg (by omega), if_neg (by omega), if_neg (by omega)]
  have harg : (((0xC0000000 + l) <<< 32) + (t <<< 16) + n) % 2 ^ 64 = packValue l t n := by
    rw [Nat.shiftLeft_eq, Nat.shiftLeft_eq]
    exact Nat.mod_eq_of_lt (packValue_lt l t n hl ht hn)
  rw [harg]

lemma packValue_div60 (l t n : Nat) (hl : l ≤ 0xFFFFFFF) (ht : t ≤ 0xFFFF)
    (hn : n ≤ 0xFFFF) : packValue l t n / 2 ^ 60 % 16 = 12 := by
  unfold packValue
  rw [show (2 : Nat) ^ 32 = 4294967296 by norm_num,
    show (2 : Nat) ^ 16 = 65536 by norm_num,
    show (2 : Nat) ^ 60 = 1152921504606846976 by norm_num]
  omega

lemma packValue_unpack (l t n : Nat) (hl : l ≤ 0xFFFFFFF) (ht : t ≤ 0xFFFF)
    (hn : n ≤ 0xFFFF) :
    packValue l t n / 2 ^ 32 % 2 ^ 28 = l ∧
    packValue l t n / 2 ^ 16 % 2 ^ 16 = t ∧
    packValue l t n % 2 ^ 16 = n := by
  unfold packValue
  rw [show (2 : Nat) ^ 32 = 4294967296 by norm_num,
    show (2 : Nat) ^ 16 = 65536 by norm_num,
    show (2 : Nat) ^ 28 = 268435456 by norm_num]
  refine ⟨by omega, by omega, by omega⟩

lemma packValue_ge (l t n : Nat) : 2 ^ 60 ≤ packValue l t n := by
  unfold packValue
  rw [show (2 : Nat) ^ 32 = 4294967296 by norm_num,
    show (2 : Nat) ^ 16 = 65536 by norm_num,
    show (2 : Nat) ^ 60 = 1152921504606846976 by norm_num]
  omega

/-! ### Decode characterization -/

lemma decodeCTIMValue_eq (v : Nat) (hv : v ≤ 0xFFFFFFFFFFFFFFFF) :
    decodeCTIMValue v =
      if v / 2 ^ 60 % 16 = 12 then
        some (v / 2 ^ 32 % 2 ^ 28, v / 2 ^ 16 % 2 ^ 16, v % 2 ^ 16)
      else none := by
  unfold decodeCTIMValue
  by_cases htag : v / 2 ^ 60 % 16 = 12
  · rw [if_pos htag, if_neg]
    · rw [Nat.shiftRight_eq_div_pow, Nat.shiftRight_eq_div_pow, and_FFFF, and_FFFF,
        and_FFFFFFF]
    · push_neg
      exact ⟨by omega, (tag_iff v).mpr htag⟩
  · rw [if_neg htag, if_pos]
    exact Or.inr fun h => htag ((tag_iff v).mp h)

lemma decodeCTIMValue_packValue (l t n : Nat) (hl : l ≤ 0xFFFFFFF) (ht : t ≤ 0xFFFF)
    (hn : n ≤ 0xFFFF) : decodeCTIMValue (packValue l t n) = some (l, t, n) := by
  have hle : packValue l t n ≤ 0xFFFFFFFFFFFFFFFF := by
    have := packValue_lt l t n hl ht hn
    rw [show (2 : Nat) ^ 64 = 18446744073709551616 by norm_num] at this
    omega
  rw [decodeCTIMValue_eq _ hle, if_pos (packValue_div60 l t n hl ht hn)]
  obtain ⟨e1, e2, e3⟩ := packValue_unpack l t n hl ht hn
  rw [e1, e2, e3]

lemma decodeCTIMString_valid (s : String) (hlen : s.length = 16)
    (hall : s.data.all isUpperHexDigit = true) :
    decodeCTIMString s = decodeCTIMValue (parseHex s.data) := by
  unfold decodeCTIMString
  rw [if_neg (by omega), if_neg (by simp [hall])]

lemma hexCharVal_lt (c : Char) (h : isUpperHexDigit c = true) : hexCharVal c < 16 := by
  unfold isUpperHexDigit at h
  simp only [Bool.or_eq_true, Bool.and_eq_true, decide_eq_true_eq] at h
  unfold hexCharVal
  rcases h with ⟨h1, h2⟩ | ⟨h1, h2⟩
  · rw [if_pos h2]
    rw [char_le_iff] at h1 h2
    have e1 : ('0' : Char).toNat = 48 := rfl
    have e2 : ('9' : Char).toNat = 57 := rfl
    omega
  · have h9 : ¬ c ≤ '9' := by
      intro hc
      exact absurd (le_trans h1 hc) (by decide)
    rw [if_neg h9]
    rw [char_le_iff] at h1 h2
    have e1 : ('A' : Char).toNat = 65 := rfl
    have e2 : ('F' : Char).toNat = 70 := rfl
    omega

lemma parseHex_lt (cs : List Char) (h : cs.all isUpperHexDigit = true) :
    parseHex cs < 16 ^ cs.length := by
  induction cs using List.reverseRecOn with
  | nil => simp [parseHex]
  | append_singleton xs c ih =>
    rw [List.all_append] at h
    simp only [Bool.and_eq_true, List.all_cons, List.all_nil, Bool.and_true] at h
    obtain ⟨hxs, hc⟩ := h
    rw [parseHex_concat, List.length_append, List.length_cons, List.length_nil]
    have h1 := ih hxs
    have h2 := hexCharVal_lt c hc
    calc 16 * parseHex xs + hexCharVal c < 16 * parseHex xs + 16 := by omega
      _ = 16 * (parseHex xs + 1) := by ring
      _ ≤ 16 * 16 ^ xs.length := by
        have : parseHex xs + 1 ≤ 16 ^ xs.length := h1
        omega
      _ = 16 ^ (xs.length + (0 + 1)) := by rw [Nat.pow_succ]; ring

/-! ### Claims -/

/-- C1: for every triple `(l, t, n)` with `l ≤ 0xFFFFFFF`, `t ≤ 0xFFFF` and
`n ≤ 0xFFFF`, `encodeCTIM l t n` succeeds, and `decodeCTIM` applied to the
resulting 16-character string — equivalently, to its 64-bit value — succeeds
and returns exactly `(l, t, n)`. -/
theorem C1_encode_decode_roundtrip (l t n : Nat) (hl : l ≤ 0xFFFFFFF)
    (ht : t ≤ 0xFFFF) (hn : n ≤ 0xFFFF) :
    ∃ s : String, encodeCTIM l t n = some s ∧
      decodeCTIMString s = some (l, t, n) ∧
      decodeCTIMValue (parseHex s.data) = some (l, t, n) := by
  refine ⟨hexPad16 (packValue l t n), encodeCTIM_eq l t n hl ht hn, ?_, ?_⟩
  · rw [decodeCTIMString_valid _ (hexPad16_length _ (packValue_lt l t n hl ht hn))
      (hexPad16_all _), parseHex_hexPad16]
    exact decodeCTIMValue_packValue l t n hl ht hn
  · rw [parseHex_hexPad16]
    exact decodeCTIMValue_packValue l t n hl ht hn

/-- Witness for C1 at the triple `(1, 2, 3)`. -/
theorem C1_encode_decode_roundtrip_witness :
    ∃ s : String, encodeCTIM 1 2 3 = some s ∧
      decodeCTIMString s = some (1, 2, 3) ∧
      decodeCTIMValue (parseHex s.data) = some (1, 2, 3) :=
  C1_encode_decode_roundtrip 1 2 3 (by decide) (by decide) (by decide)

/-- C2: for every in-range triple, the successful result of `encodeCTIM` is
exactly the 16-character, uppercase, zero-padded hexadecimal representation
(no prefix, no separators) of the 64-bit value
`((0xC0000000 + l) <<< 32) ||| (t <<< 16) ||| n`, computed in unsigned
arithmetic of width at least 64 bits without overflow (the value stays below
`2 ^ 64`). -/
theorem C2_encode_is_hex_of_packed (l t n : Nat) (hl : l ≤ 0xFFFFFFF)
    (ht : t ≤ 0xFFFF) (hn : n ≤ 0xFFFF) :
    ∃ s : String, encodeCTIM l t n = some s ∧
      s.length = 16 ∧ s.data.all isUpperHexDigit = true ∧
      parseHex s.data = ((0xC0000000 + l) <<< 32) ||| (t <<< 16) ||| n ∧
      ((0xC0000000 + l) <<< 32) ||| (t <<< 16) ||| n < 2 ^ 64 := by
  have hor : ((0xC0000000 + l) <<< 32) ||| (t <<< 16) ||| n = packValue l t n := by
    rw [Nat.shiftLeft_eq, Nat.shiftLeft_eq]
    have h2 : t * 2 ^ 16 < 2 ^ 32 := by
      rw [show (2 : Nat) ^ 16 = 65536 by norm_num,
        show (2 : Nat) ^ 32 = 4294967296 by norm_num]
      omega
    have h4 : n < 2 ^ 16 := by
      rw [show (2 : Nat) ^ 16 = 65536 by norm_num]
      omega
    rw [Nat.mul_comm (0xC0000000 + l) (2 ^ 32), ← Nat.mul_add_lt_is_or h2 (0xC0000000 + l)]
    have h3 : 2 ^ 32 * (0xC0000000 + l) + t * 2 ^ 16 =
        2 ^ 16 * (2 ^ 16 * (0xC0000000 + l) + t) := by ring
    rw [h3, ← Nat.mul_add_lt_is_or h4]
    unfold packValue
    ring
  rw [hor]
  exact ⟨hexPad16 (packValue l t n), encodeCTIM_eq l t n hl ht hn,
    hexPad16_length _ (packValue_lt l t n hl ht hn), hexPad16_all _,
    parseHex_hexPad16 _, packValue_lt l t n hl ht hn⟩

/-- Witness for C2 at the triple `(13249191, 12911, 49221)`. -/
theorem C2_encode_is_hex_of_packed_witness :
    ∃ s : String, encodeCTIM 13249191 12911 49221 = some s ∧
      s.length = 16 ∧ s.data.all isUpperHexDigit = true ∧
      parseHex s.data = ((0xC0000000 + 13249191) <<< 32) ||| (12911 <<< 16) ||| 49221 ∧
      ((0xC0000000 + 13249191) <<< 32) ||| (12911 <<< 16) ||| 49221 < 2 ^ 64 :=
  C2_encode_is_hex_of_packed 13249191 12911 49221 (by decide) (by decide) (by decide)

/-- C3: on the integer path, for every 64-bit value `v`, `decodeCTIMValue`
fails exactly when the top nibble is not the `0xC` tag, and on success it
returns `((v >>> 32) &&& 0xFFFFFFF, (v >>> 16) &&& 0xFFFF, v &&& 0xFFFF)`,
each component within its data-model bound. -/
theorem C3_decode_value_characterization (v : Nat) (hv : v ≤ 0xFFFFFFFFFFFFFFFF) :
    (decodeCTIMValue v = none ↔ v &&& 0xF000000000000000 ≠ 0xC000000000000000) ∧
      (v &&& 0xF000000000000000 = 0xC000000000000000 →
        decodeCTIMValue v =
          some ((v >>> 32) &&& 0xFFFFFFF, (v >>> 16) &&& 0xFFFF, v &&& 0xFFFF) ∧
        (v >>> 32) &&& 0xFFFFFFF ≤ 0xFFFFFFF ∧
        (v >>> 16) &&& 0xFFFF ≤ 0xFFFF ∧ v &&& 0xFFFF ≤ 0xFFFF) := by
  constructor
  · rw [decodeCTIMValue_eq v hv]
    constructor
    · intro h htag
      rw [if_pos ((tag_iff v).mp htag)] at h
      exact Option.some_ne_none _ h
    · intro h
      rw [if_neg fun hc => h ((tag_iff v).mpr hc)]
  · intro htag
    refine ⟨?_, Nat.and_le_right, Nat.and_le_right, Nat.and_le_right⟩
    unfold decodeCTIMValue
    rw [if_neg]
    push_neg
    exact ⟨by omega, htag⟩

/-- Witness for C3 at `v = 0xC000000100020003`. -/
theorem C3_decode_value_characterization_witness :
    (decodeCTIMValue 0xC000000100020003 = none ↔
      0xC000000100020003 &&& 0xF000000000000000 ≠ 0xC000000000000000) ∧
      (0xC000000100020003 &&& 0xF000000000000000 = 0xC000000000000000 →
        decodeCTIMValue 0xC000000100020003 =
          some ((0xC000000100020003 >>> 32) &&& 0xFFFFFFF,
            (0xC000000100020003 >>> 16) &&& 0xFFFF, 0xC000000100020003 &&& 0xFFFF) ∧
        (0xC000000100020003 >>> 32) &&& 0xFFFFFFF ≤ 0xFFFFFFF ∧
        (0xC000000100020003 >>> 16) &&& 0xFFFF ≤ 0xFFFF ∧
        0xC000000100020003 &&& 0xFFFF ≤ 0xFFFF) :=
  C3_decode_value_characterization 0xC000000100020003 (by decide)

/-- C4: `encodeCTIM` fails exactly when a field exceeds its bound
(`lgrIndex > 0xFFFFFFF`, `txnIndex > 0xFFFF` or `networkId > 0xFFFF`); in
particular `encodeCTIM 0x10000000 0xFFFF 0xFFFF` fails, and for all in-range
inputs it does not fail. -/
theorem C4_encode_validation (l t n : Nat) :
    (encodeCTIM l t n = none ↔ 0xFFFFFFF < l ∨ 0xFFFF < t ∨ 0xFFFF < n) ∧
      encodeCTIM 0x10000000 0xFFFF 0xFFFF = none := by
  constructor
  · unfold encodeCTIM
    split_ifs with h1 h2 h3 <;> simp <;> omega
  · decide

/-- C5: on the text path, `decodeCTIMString` fails for every string whose
length is not 16 and for every string with a character outside `[0-9A-F]`
(in particular any lowercase hex digit, the contract being case-sensitive);
only strings passing both guards are parsed base-16 and handed to the common
validation. -/
theorem C5_decode_string_guards (s : String) :
    (s.length ≠ 16 → decodeCTIMString s = none) ∧
      (s.data.all isUpperHexDigit = false → decodeCTIMString s = none) ∧
      (∀ c ∈ s.data, 'a' ≤ c → c ≤ 'f' → decodeCTIMString s = none) ∧
      (s.length = 16 → s.data.all isUpperHexDigit = true →
        decodeCTIMString s = decodeCTIMValue (parseHex s.data)) := by
  have hfail : s.data.all isUpperHexDigit = false → decodeCTIMString s = none := by
    intro h
    unfold decodeCTIMString
    by_cases hlen : s.length ≠ 16
    · rw [if_pos hlen]
    · rw [if_neg hlen, if_pos (by simp [h])]
  refine ⟨?_, hfail, ?_, fun h1 h2 => decodeCTIMString_valid s h1 h2⟩
  · intro h
    unfold decodeCTIMString
    rw [if_pos h]
  · intro c hc h1 h2
    apply hfail
    have hfalse : isUpperHexDigit c = false := by
      unfold isUpperHexDigit
      have h9 : ¬ c ≤ '9' := fun hc9 => absurd (le_trans h1 hc9) (by decide)
      have hF : ¬ c ≤ 'F' := fun hcF => absurd (le_trans h1 hcF) (by decide)
      simp [h9, hF]
    rw [Bool.eq_false_iff]
    intro hallt
    rw [List.all_eq_true] at hallt
    have hct := hallt c hc
    rw [hfalse] at hct
    exact Bool.false_ne_true hct

/-- Witness for C5: a short string and a lowercase-hex string both fail. -/
theorem C5_decode_string_guards_witness :
    decodeCTIMString "ABC" = none ∧ decodeCTIMString "c000000100020003" = none :=
  ⟨(C5_decode_string_guards "ABC").1 (by decide),
    (C5_decode_string_guards "c000000100020003").2.2.1 'c' (by decide) (by decide)
      (by decide)⟩

/-- C6: every successful `encodeCTIM` result starts with the character `'C'`;
equivalently the packed 64-bit value masked with `0xF000000000000000` equals
`0xC000000000000000` — including at the boundary `lgrIndex = 0xFFFFFFF`,
where no carry propagates into the tag nibble. -/
theorem C6_tag_invariant (l t n : Nat) (hl : l ≤ 0xFFFFFFF) (ht : t ≤ 0xFFFF)
    (hn : n ≤ 0xFFFF) :
    ∃ s : String, encodeCTIM l t n = some s ∧ s.data.head? = some 'C' ∧
      packValue l t n &&& 0xF000000000000000 = 0xC000000000000000 := by
  refine ⟨hexPad16 (packValue l t n), encodeCTIM_eq l t n hl ht hn, ?_,
    (tag_iff _).mpr (packValue_div60 l t n hl ht hn)⟩
  rw [hexPad16_head _ (packValue_ge l t n) (packValue_lt l t n hl ht hn)]
  have h12 : packValue l t n / 2 ^ 60 = 12 := by
    unfold packValue
    rw [show (2 : Nat) ^ 32 = 4294967296 by norm_num,
      show (2 : Nat) ^ 16 = 65536 by norm_num,
      show (2 : Nat) ^ 60 = 1152921504606846976 by norm_num]
    omega
  rw [h12]
  decide

/-- Witness for C6 at the boundary triple `(0xFFFFFFF, 0xFFFF, 0xFFFF)`. -/
theorem C6_tag_invariant_witness :
    ∃ s : String, encodeCTIM 0xFFFFFFF 0xFFFF 0xFFFF = some s ∧
      s.data.head? = some 'C' ∧
      packValue 0xFFFFFFF 0xFFFF 0xFFFF &&& 0xF000000000000000 = 0xC000000000000000 :=
  C6_tag_invariant 0xFFFFFFF 0xFFFF 0xFFFF (by decide) (by decide) (by decide)

/-- C7: the concrete vectors of the test harness hold: the four encode
vectors and the integer decode vector. -/
theorem C7_concrete_vectors :
    encodeCTIM 0xFFFFFFF 0xFFFF 0xFFFF = some "CFFFFFFFFFFFFFFF" ∧
      encodeCTIM 0 0 0 = some "C000000000000000" ∧
      encodeCTIM 1 2 3 = some "C000000100020003" ∧
      encodeCTIM 13249191 12911 49221 = some "C0CA2AA7326FC045" ∧
      decodeCTIMValue 0xC000000100020003 = some (1, 2, 3) :=
  ⟨by decide, by decide, by decide, by decide, by decide⟩

/-- C8: neither operation can raise or abort: both always return an explicit
optional value, and on the text path, once the length-16 and hex-charset
guards pass, the parsed value is at most `0xFFFFFFFFFFFFFFFF`, so the
overflow branch of the parse is unreachable and decode proceeds to the
common validation. -/
theorem C8_total_no_overflow (s : String) (hlen : s.length = 16)
    (hall : s.data.all isUpperHexDigit = true) :
    parseHex s.data ≤ 0xFFFFFFFFFFFFFFFF ∧
      decodeCTIMString s = decodeCTIMValue (parseHex s.data) ∧
      (decodeCTIMString s = none ∨ ∃ l t n, decodeCTIMString s = some (l, t, n)) ∧
      (∀ l t n : Nat, encodeCTIM l t n = none ∨
        ∃ r : String, encodeCTIM l t n = some r) := by
  have hb : parseHex s.data < 16 ^ 16 := by
    have h := parseHex_lt s.data hall
    rw [string_length_data] at hlen
    rwa [hlen] at h
  refine ⟨?_, decodeCTIMString_valid s hlen hall, ?_, ?_⟩
  · rw [show (16 : Nat) ^ 16 = 18446744073709551616 by norm_num] at hb
    omega
  · match h : decodeCTIMString s with
    | none => exact Or.inl rfl
    | some (l, t, n) => exact Or.inr ⟨l, t, n, rfl⟩
  · intro l t n
    match h : encodeCTIM l t n with
    | none => exact Or.inl rfl
    | some r => exact Or.inr ⟨r, rfl⟩

/-- Witness for C8 at the all-ones hex string. -/
theorem C8_total_no_overflow_witness :
    parseHex "FFFFFFFFFFFFFFFF".data ≤ 0xFFFFFFFFFFFFFFFF ∧
      decodeCTIMString "FFFFFFFFFFFFFFFF" =
        decodeCTIMValue (parseHex "FFFFFFFFFFFFFFFF".data) ∧
      (decodeCTIMString "FFFFFFFFFFFFFFFF" = none ∨
        ∃ l t n, decodeCTIMString "FFFFFFFFFFFFFFFF" = some (l, t, n)) ∧
      (∀ l t n : Nat, encodeCTIM l t n = none ∨
        ∃ r : String, encodeCTIM l t n = some r) :=
  C8_total_no_overflow "FFFFFFFFFFFFFFFF" (by decide) (by decide)

/-- C9: `decodeCTIM` is a pure, deterministic function of its input: two
calls with identical input — the same string or the same 64-bit integer —
yield identical results. -/
theorem C9_decode_deterministic (s₁ s₂ : String) (v₁ v₂ : Nat) (hs : s₁ = s₂)
    (hv : v₁ = v₂) :
    decodeCTIMString s₁ = decodeCTIMString s₂ ∧
      decodeCTIMValue v₁ = decodeCTIMValue v₂ := by
  subst hs
  subst hv
  exact ⟨rfl, rfl⟩

/-- Witness for C9 at a concrete repeated input. -/
theorem C9_decode_deterministic_witness :
    decodeCTIMString "C000000100020003" = decodeCTIMString "C000000100020003" ∧
      decodeCTIMValue 0xC000000100020003 = decodeCTIMValue 0xC000000100020003 :=
  C9_decode_deterministic "C000000100020003" "C000000100020003"
    0xC000000100020003 0xC000000100020003 rfl rfl

/-- C10: for every 64-bit value `v` carrying the `0xC` tag,
`decodeCTIMValue v` succeeds with some triple, `encodeCTIM` succeeds on that
triple, and its result is exactly the 16-character uppercase hexadecimal
representation of `v`: decode loses no information on tagged values and
encode-after-decode is the identity on the tagged subset. -/
theorem C10_decode_encode_roundtrip (v : Nat) (hv : v ≤ 0xFFFFFFFFFFFFFFFF)
    (htag : v &&& 0xF000000000000000 = 0xC000000000000000) :
    ∃ l t n : Nat, decodeCTIMValue v = some (l, t, n) ∧
      encodeCTIM l t n = some (hexPad16 v) ∧
      (hexPad16 v).length = 16 ∧ (hexPad16 v).data.all isUpperHexDigit = true ∧
      parseHex (hexPad16 v).data = v := by
  have h12 : v / 2 ^ 60 % 16 = 12 := (tag_iff v).mp htag
  have hv64 : v < 2 ^ 64 := by
    rw [show (2 : Nat) ^ 64 = 18446744073709551616 by norm_num]
    omega
  have hl : v / 2 ^ 32 % 2 ^ 28 ≤ 0xFFFFFFF := by
    have := Nat.mod_lt (v / 2 ^ 32) (y := 2 ^ 28) (by positivity)
    rw [show (2 : Nat) ^ 28 = 268435456 by norm_num] at this
    omega
  have ht : v / 2 ^ 16 % 2 ^ 16 ≤ 0xFFFF := by
    have := Nat.mod_lt (v / 2 ^ 16) (y := 2 ^ 16) (by positivity)
    rw [show (2 : Nat) ^ 16 = 65536 by norm_num] at this
    omega
  have hn : v % 2 ^ 16 ≤ 0xFFFF := by
    have := Nat.mod_lt v (y := 2 ^ 16) (by positivity)
    rw [show (2 : Nat) ^ 16 = 65536 by norm_num] at this
    omega
  have hpack : packValue (v / 2 ^ 32 % 2 ^ 28) (v / 2 ^ 16 % 2 ^ 16) (v % 2 ^ 16) = v := by
    unfold packValue
    rw [show (2 : Nat) ^ 32 = 4294967296 by norm_num,
      show (2 : Nat) ^ 16 = 65536 by norm_num,
      show (2 : Nat) ^ 28 = 268435456 by norm_num]
    rw [show (2 : Nat) ^ 60 = 1152921504606846976 by norm_num] at h12
    omega
  refine ⟨v / 2 ^ 32 % 2 ^ 28, v / 2 ^ 16 % 2 ^ 16, v % 2 ^ 16, ?_, ?_,
    hexPad16_length v hv64, hexPad16_all v, parseHex_hexPad16 v⟩
  · rw [decodeCTIMValue_eq v hv, if_pos h12]
  · rw [encodeCTIM_eq _ _ _ hl ht hn, hpack]

/-- Witness for C10 at `v = 0xC000000100020003`. -/
theorem C10_decode_encode_roundtrip_witness :
    ∃ l t n : Nat, decodeCTIMValue 0xC000000100020003 = some (l, t, n) ∧
      encodeCTIM l t n = some (hexPad16 0xC000000100020003) ∧
      (hexPad16 0xC000000100020003).length = 16 ∧
      (hexPad16 0xC000000100020003).data.all isUpperHexDigit = true ∧
      parseHex (hexPad16 0xC000000100020003).data = 0xC000000100020003 :=
  C10_decode_encode_roundtrip 0xC000000100020003 (by decide) (by decide)

end CTIM
